import Mathlib

/-!
# Verification of the Onramp compiler core (cci stages opC and full)

Shallow embedding of the parts of the Onramp C compiler needed to settle the
frozen claims: the opC emitter (`emit.c`), the opC function epilogue
(`compile.c`), the opC type table (`types.c`), the full-stage lexer escape
sequences (`lexer.c`), number literal typing (`parse_expr.c`), record layout
(`record.c`), function parameter lists (`parse_decl.c`), runtime-call lowering
of wide arithmetic (`generate_ops.c`) and the `__func__` builtin
(`parse_expr.c` / `function.c`).

Machine integers are modelled as `Nat`/`Int` with explicit reductions mod 2^32
or 2^64 where the C code can wrap.  Functions that can call `fatal(...)` return
`Option`/`Except`, with `none`/`.error` marking the fatal path.
-/

namespace Onramp

/-- Decidable equality for `Except`, so that concrete runs of the fallible
embedded functions can be checked by `decide`. -/
instance {ε α : Type} [DecidableEq ε] [DecidableEq α] : DecidableEq (Except ε α) :=
  fun a b =>
    match a, b with
    | .ok x, .ok y => decidable_of_iff (x = y) (by simp)
    | .ok _, .error _ => isFalse (by simp)
    | .error _, .ok _ => isFalse (by simp)
    | .error e, .error f => decidable_of_iff (e = f) (by simp)

/-! ## src/core/cci/1-opc/src/emit.c — the opC emitter

We model the character stream written to the output file.  The
`emit_enabled` short-circuit (used by `compile_inhibit_push/pop` while
parsing `sizeof` operands) is a global gate: when disabled no characters at
all are written, so it is elided here; all claims concern enabled emission. -/

/-- `int_to_hex` from emit.c: the hex digit character for a nibble value.
The C code calls `fatal` for values above 15; every caller masks with
`& 0xF` first, so the branch is unreachable and is not modelled. -/
def int_to_hex (value : Nat) : Char :=
  if value ≤ 9 then Char.ofNat (48 + value)
  else Char.ofNat (65 + (value - 10))

/-- `emit_hex_number` from emit.c, operating on the 32-bit representation
`u < 2^32` of the C `int` argument.  Each C guard `number & M` with
`M = 0xF0000000, 0xFF000000, …, 0xFFFFFFF0` tests whether any bit at or
above position `4k` is set, which for a 32-bit value is exactly
`u / 16^k ≠ 0`; and `(number >> 4k) & 0xF` is `u / 16^k % 16`. -/
def emit_hex_number (u : Nat) : List Char :=
  (if u / 0x10000000 ≠ 0 then [int_to_hex (u / 0x10000000 % 16)] else []) ++
  (if u / 0x1000000 ≠ 0 then [int_to_hex (u / 0x1000000 % 16)] else []) ++
  (if u / 0x100000 ≠ 0 then [int_to_hex (u / 0x100000 % 16)] else []) ++
  (if u / 0x10000 ≠ 0 then [int_to_hex (u / 0x10000 % 16)] else []) ++
  (if u / 0x1000 ≠ 0 then [int_to_hex (u / 0x1000 % 16)] else []) ++
  (if u / 0x100 ≠ 0 then [int_to_hex (u / 0x100 % 16)] else []) ++
  (if u / 0x10 ≠ 0 then [int_to_hex (u / 0x10 % 16)] else []) ++
  [int_to_hex (u % 16)]

/-- The digit-collecting loop of `emit_decimal` (emit.c): digits are written
into a buffer from the right, i.e. prepended; `number - number / 10 * 10`
is the current digit and the loop continues with `number / 10`. -/
def emit_decimal_loop (number : Nat) (acc : List Char) : List Char :=
  if _h : number = 0 then acc
  else emit_decimal_loop (number / 10)
    (Char.ofNat (48 + (number - number / 10 * 10)) :: acc)
termination_by number
decreasing_by exact Nat.div_lt_self (Nat.pos_of_ne_zero _h) (by norm_num)

/-- `emit_decimal` from emit.c: special cases for `0` and `INT_MIN`, a minus
sign for negatives, then the digit loop on the (now positive) value. -/
def emit_decimal (number : Int) : List Char :=
  if number = 0 then ['0']
  else if number = -2147483648 then "-2147483648".toList
  else (if number < 0 then ['-'] else []) ++ emit_decimal_loop number.natAbs []

/-- The 32-bit two's-complement representation of a C `int` value, as passed
bit-for-bit to `emit_hex_number`. -/
def toU32 (v : Int) : Nat := (v % (2 : Int) ^ 32).toNat

/-- `emit_int` from emit.c: decimal (plus a trailing space) when
`value > -100000000 && value < 1000000`, otherwise `0x` followed by
`emit_hex_number` on the bit pattern, plus a trailing space. -/
def emit_int (value : Int) : List Char :=
  if value > -100000000 ∧ value < 1000000 then
    emit_decimal value ++ [' ']
  else
    '0' :: 'x' :: emit_hex_number (toU32 value) ++ [' ']

/-- Reference decoder for a big-endian hex digit string (uppercase, as
produced by `int_to_hex`). Used to state what the emitted digits denote. -/
def hexVal (c : Char) : Nat :=
  if c.toNat ≤ 57 then c.toNat - 48 else c.toNat - 55

/-- Decode a big-endian list of hex digit characters. -/
def decodeHex (ds : List Char) : Nat :=
  ds.foldl (fun acc c => acc * 16 + hexVal c) 0

/-- Decode a big-endian list of decimal digit characters. -/
def decodeDec (ds : List Char) : Nat :=
  ds.foldl (fun acc c => acc * 10 + (c.toNat - 48)) 0

/-- An uppercase hexadecimal digit character. -/
def isHexDigitUpper (c : Char) : Prop :=
  (48 ≤ c.toNat ∧ c.toNat ≤ 57) ∨ (65 ≤ c.toNat ∧ c.toNat ≤ 70)

instance (c : Char) : Decidable (isHexDigitUpper c) := by
  unfold isHexDigitUpper; infer_instance

/-! ## src/core/cci/1-opc/src/compile.c — the opC function epilogue

`emit_term`/`emit_newline` maintain the `first_term` flag (start-of-line
indentation).  We carry it in an explicit state together with the output. -/

/-- The opC emitter state: characters written so far and the `first_term`
start-of-line flag from emit.c. -/
structure EmitState where
  out : List Char
  first_term : Bool
deriving Repr, DecidableEq

/-- `emit_char` from emit.c (output side; `emit_enabled` elided, see above). -/
def emit_char (c : Char) (e : EmitState) : EmitState :=
  { e with out := e.out ++ [c] }

/-- `emit_string` from emit.c. -/
def emit_string (s : String) (e : EmitState) : EmitState :=
  { e with out := e.out ++ s.toList }

/-- `emit_newline` from emit.c: a newline, and the next term is first on its line. -/
def emit_newline (e : EmitState) : EmitState :=
  { emit_char '\n' e with first_term := true }

/-- `emit_term` from emit.c: two-space indent before the first term of a line,
then the keyword and a trailing space. -/
def emit_term (keyword : String) (e : EmitState) : EmitState :=
  let e := if e.first_term then { emit_string "  " e with first_term := false } else e
  emit_char ' ' (emit_string keyword e)

/-- `emit_label` from emit.c: the glyph, the label name, a trailing space. -/
def emit_label (ty : Char) (label_name : String) (e : EmitState) : EmitState :=
  emit_char ' ' (emit_string label_name (emit_char ty e))

/-- `emit_prefixed_label` from emit.c. -/
def emit_prefixed_label (ty : Char) (pfx label_name : String) (e : EmitState) : EmitState :=
  emit_char ' ' (emit_string label_name (emit_string pfx (emit_char ty e)))

/-- `emit_int` as a state operation: `emit_int` only calls `emit_char` /
`emit_string`, so it appends exactly the characters computed above and leaves
`first_term` alone. -/
def emit_int_state (value : Int) (e : EmitState) : EmitState :=
  { e with out := e.out ++ emit_int value }

/-- `emit_global_divider` from emit.c: three newlines. -/
def emit_global_divider (e : EmitState) : EmitState :=
  emit_newline (emit_newline (emit_newline e))

/-- The opC storage classes consulted by `compile_storage_glyph`.  The
`storage_t` enum itself is declared in a header that is not under `src/`;
only the distinctions static / typedef / other matter here. -/
inductive storage_t where
  | default_s
  | extern_s
  | static_s
  | typedef_s
deriving Repr, DecidableEq

/-- `compile_storage_glyph` from compile.c: `'@'` for static, `'='` otherwise;
the `assert(storage != STORAGE_TYPEDEF)` is modelled as `none`. -/
def compile_storage_glyph (storage : storage_t) : Option Char :=
  match storage with
  | .typedef_s => none
  | .static_s => some '@'
  | _ => some '='

/-- `compile_function_close` from compile.c.  `global_name(global)` (global.c)
is the function's name string and is passed directly; `locals_frame_size` is
the global computed by locals.c (not under `src/`), passed as a parameter.
Note the `if (0 == strcmp(name, "main"))` around the zero-return is commented
out in the source, so the `zero r0` is emitted for every function. -/
def compile_function_close (name : String) (storage : storage_t)
    (locals_frame_size : Nat) (e : EmitState) : Option EmitState :=
  match compile_storage_glyph storage with
  | none => none
  | some glyph =>
    -- add a return in case the function didn't return on its own
    let e := emit_term "zero" e
    let e := emit_term "r0" e
    let e := emit_newline e
    let e := emit_term "leave" e
    let e := emit_newline e
    let e := emit_term "ret" e
    let e := emit_newline e
    -- emit the function prologue
    let e := emit_newline e
    let e := emit_label glyph name e
    let e := emit_newline e
    let e := emit_term "enter" e
    let e := emit_newline e
    -- set up the stack frame (now that we know its size)
    let e :=
      if locals_frame_size > 0 then
        if locals_frame_size < 0x80 then
          emit_newline (emit_int_state locals_frame_size
            (emit_term "rsp" (emit_term "rsp" (emit_term "sub" e))))
        else e
      else e
    let e :=
      if locals_frame_size ≥ 0x80 then
        emit_newline (emit_term "r9" (emit_term "rsp" (emit_term "rsp" (emit_term "sub"
          (emit_newline (emit_int_state locals_frame_size
            (emit_term "r9" (emit_term "imw" e))))))))
      else e
    -- jump to the top of the function
    let e := emit_term "jmp" e
    let e := emit_prefixed_label '^' "_F_" name e
    some (emit_global_divider e)

/-! ## src/core/cci/2-full/src/generate_ops.c — runtime-call lowering

Instructions are `block_add`ed to the current block; we model the appended
instruction list.  `generate_node` (generate.c, not under `src/`) recursively
generates a child into a target register: it is abstracted as a function from
the target register to the emitted instructions.  `generate_register_push`
(the rolling high-water helper of generate.c, also not under `src/`) only
renames `register_num` and brackets the code with pushes/pops; the claims
depend only on the emitted `CALL` symbol, so it is elided. -/

/-- The opcodes used by the modelled parts of generate_ops.c. -/
inductive opcode_t where
  | ADD | SUB | MUL | DIVS | DIVU | MODS | MODU
  | SHL | SHRS | SHRU | AND | OR | XOR
  | PUSH | POP | MOV | CALL | IMW | CMPS | CMPU
deriving Repr, DecidableEq

/-- An operand of a generated instruction: a register number (RSP = 12 as in
the opC emitter), an immediate, or a `'^'`-prefixed label reference. -/
inductive instr_arg where
  | reg (n : Nat)
  | imm (n : Nat)
  | lblref (glyph : Char) (name : String)
deriving Repr, DecidableEq

/-- One instruction appended by `block_add`. -/
structure Instr where
  op : opcode_t
  args : List instr_arg
deriving Repr, DecidableEq

/-- The stack pointer register index (`RSP`). -/
def RSP : Nat := 12

/-- The value of the type predicates that generate_ops.c consults on
`node->type`.  Modelled from the spec: `type_size` / `type_is_long_long` /
`type_matches_base` / `type_is_signed_integer` / `type_is_indirection`
live in type.c, which is not under `src/`; a type is summarised by the
answers those predicates give. -/
structure OpType where
  size : Nat
  is_long_long : Bool
  is_float : Bool
  is_double : Bool
deriving Repr, DecidableEq

/-- `generate_binary_function` from generate_ops.c: push live registers, for
64-bit math reserve a stack slot whose address goes in r1, generate the two
children into r0 and r1, `CALL` the named runtime function, move the result
into the output register, unwind.  (The unwind loop in the source emits
`PUSH` opcodes under a `// pop registers` comment; modelled as written.) -/
def generate_binary_function (ty : OpType) (register_num : Nat)
    (function_name : String) (child_first child_last : Nat → List Instr) :
    List Instr :=
  -- push registers: for (i = register_num; i > R0;) PUSH(--i)
  ((List.range register_num).reverse.map (fun i => Instr.mk .PUSH [.reg i])) ++
  -- for 64-bit math, make room for a temporary
  (if ty.size ≠ 4 then
    (if register_num ≠ 0 then [Instr.mk .MOV [.reg 0, .reg register_num]] else []) ++
    [Instr.mk .SUB [.reg RSP, .reg RSP, .imm ty.size],
     Instr.mk .MOV [.reg 1, .reg RSP]]
  else []) ++
  -- generate arguments
  child_first 0 ++ child_last 1 ++
  -- generate function call
  [Instr.mk .CALL [.lblref '^' function_name]] ++
  -- move return value into output register
  (if register_num ≠ 0 then [Instr.mk .MOV [.reg register_num, .reg 0]] else []) ++
  -- "pop registers": for (i = 0; i < register_num; ++i) PUSH(i)  [sic]
  ((List.range register_num).map (fun i => Instr.mk .PUSH [.reg i])) ++
  -- pop stack space used for temporary
  (if ty.size ≠ 4 then [Instr.mk .ADD [.reg RSP, .reg RSP, .imm 8]] else [])

/-- `generate_simple_arithmetic` from generate_ops.c.  The function-name
selection is exactly the source's conditional chain: it tests the operand
type but ignores the `llong_func` / `float_func` / `double_func` parameters,
always naming the `add` runtime symbols. -/
def generate_simple_arithmetic (ty : OpType) (register_num : Nat)
    (opcode : opcode_t)
    (llong_func float_func double_func : Option String)
    (child_first child_last : Nat → List Instr) : List Instr :=
  let function : Option String :=
    if ty.is_long_long then some "__llong_add"
    else if ty.is_float then some "__float_add"
    else if ty.is_double then some "__double_add"
    else none
  match function with
  | some f => generate_binary_function ty register_num f child_first child_last
  | none =>
    child_first register_num ++ child_last (register_num + 1) ++
    [Instr.mk opcode [.reg register_num, .reg register_num, .reg (register_num + 1)]]

/-- `generate_sub` from generate_ops.c, for nodes where neither the result
nor the left child is a pointer (the pointer branches dispatch to
`generate_pointer_add_sub` / `generate_pointers_sub` and are outside the
claims' scope): it calls `generate_simple_arithmetic` with the sub symbols. -/
def generate_sub (ty : OpType) (register_num : Nat)
    (child_first child_last : Nat → List Instr) : List Instr :=
  generate_simple_arithmetic ty register_num .SUB
    (some "__llong_sub") (some "__float_sub") (some "__double_sub")
    child_first child_last

/-- `generate_div` from generate_ops.c for an unsigned (or floating) result
type: `generate_simple_arithmetic` with `DIVU` and the div symbols. -/
def generate_div_unsigned (ty : OpType) (register_num : Nat)
    (child_first child_last : Nat → List Instr) : List Instr :=
  generate_simple_arithmetic ty register_num .DIVU
    (some "__llong_divu") (some "__float_div") (some "__double_div")
    child_first child_last

/-! ## src/core/cci/2-full/src/lexer.c — escape sequences and string literals

The input is the character stream after the opening quote; `[]` is end of
file (`fgetc` returning -1, which `lexer_is_end_of_line` also treats as an
end of line). -/

/-- `lexer_consume_escape_sequence` from lexer.c, applied to the character
following the backslash.  Every `fatal(...)` becomes `.error` with the
source's message.  Note the `case '0'` is a `fatal`, not a zero byte. -/
def lexer_consume_escape_sequence (c : Char) : Except String Char :=
  if c = 'a' then .ok (Char.ofNat 7)
  else if c = 'b' then .ok (Char.ofNat 8)
  else if c = 't' then .ok (Char.ofNat 9)
  else if c = 'n' then .ok (Char.ofNat 10)
  else if c = 'v' then .ok (Char.ofNat 11)
  else if c = 'f' then .ok (Char.ofNat 12)
  else if c = 'r' then .ok (Char.ofNat 13)
  else if c = 'e' then .ok (Char.ofNat 27)
  else if c = '"' then .ok '"'
  else if c = '\'' then .ok '\''
  else if c = '?' then .ok '?'
  else if c = '\\' then .ok '\\'
  else if c = '0' then .error "Octal escape sequences are not yet supported."
  else if c = 'x' ∨ c = 'X' then
    .error "Hexadecimal escape sequences are not supported in opC."
  else if c = 'u' ∨ c = 'U' then
    .error "Unicode escape sequences are not supported in opC."
  else .error "Unrecognized escape sequence"

/-- `lexer_consume_string_literal` from lexer.c: collect bytes up to the
closing quote into the token buffer, translating escape sequences.  Returns
the buffer and the remaining input.  A backslash at end of file reaches the
escape switch with -1, which hits its default `fatal`. -/
def lexer_consume_string_literal : List Char → List Char →
    Except String (List Char × List Char)
  | [], _buf => .error "Unclosed string literal"
  | c :: rest, buf =>
    if c = '"' then .ok (buf, rest)
    else if c = '\n' ∨ c = '\r' then .error "Unclosed string literal"
    else if c = '\\' then
      match rest with
      | [] => .error "Unrecognized escape sequence"
      | e :: rest' =>
        match lexer_consume_escape_sequence e with
        | .error msg => .error msg
        | .ok c' => lexer_consume_string_literal rest' (buf ++ [c'])
    else lexer_consume_string_literal rest (buf ++ [c])

/-! ## src/core/cci/2-full/src/parse_expr.c — number literals

`u64_t` values and the `llong_*` helpers are 64-bit unsigned arithmetic,
modelled as `Nat` reduced mod `2^64`; `llong_geu`/`llong_ltu` are the
corresponding comparisons. -/

/-- The base types a number literal can receive (a fragment of the full
compiler's `base_t`). -/
inductive base_t where
  | BASE_SIGNED_INT
  | BASE_UNSIGNED_INT
  | BASE_SIGNED_LONG
  | BASE_UNSIGNED_LONG
  | BASE_SIGNED_LONG_LONG
  | BASE_UNSIGNED_LONG_LONG
deriving Repr, DecidableEq

/-- `parse_number_type` from parse_expr.c (the C17 6.4.4.1.5 table as the
source implements it).  `number` is the accumulated 64-bit value; the
`warn(...)` on implicitly-unsigned base-10 literals does not affect the
result and is elided. -/
def parse_number_type (number : Nat) (base : Nat)
    (suffix_unsigned suffix_long suffix_long_long : Bool) : base_t :=
  if suffix_unsigned ∧ suffix_long_long then .BASE_UNSIGNED_LONG_LONG
  else if number ≥ 2 ^ 63 then .BASE_UNSIGNED_LONG_LONG
  else if suffix_long_long then .BASE_SIGNED_LONG_LONG
  else if number ≥ 2 ^ 32 then
    (if suffix_unsigned then .BASE_UNSIGNED_LONG_LONG else .BASE_SIGNED_LONG_LONG)
  else if base = 10 ∧ ¬suffix_unsigned ∧ number ≥ 2 ^ 31 then .BASE_SIGNED_LONG_LONG
  else if suffix_unsigned ∧ suffix_long then .BASE_UNSIGNED_LONG
  else if base ≠ 10 ∧ number ≥ 2 ^ 31 then
    (if suffix_long then .BASE_UNSIGNED_LONG else .BASE_UNSIGNED_INT)
  else if suffix_long then .BASE_SIGNED_LONG
  else if suffix_unsigned then .BASE_UNSIGNED_INT
  else .BASE_SIGNED_INT

/-- The digit-accumulation loop of `parse_number`: digit separators, digit
classification (`digit ≥ base` ends the loop), and the 64-bit overflow
checks (`llong_mul_u` / `llong_add_u` wrap mod `2^64`; `llong_ltu` compares
the wrapped value against the previous one).  Returns the value, the final
`was_separator` flag and the unconsumed suffix characters. -/
def parse_number_digits (base : Nat) : List Char → Nat → Bool →
    Except String (Nat × Bool × List Char)
  | [], value, was_separator => .ok (value, was_separator, [])
  | c :: rest, value, was_separator =>
    if c = '\'' then parse_number_digits base rest value true
    else
      let digit : Nat :=
        if '0' ≤ c ∧ c ≤ '9' then c.toNat - 48
        else if 'a' ≤ c ∧ c ≤ 'f' then c.toNat - 97 + 10
        else if 'A' ≤ c ∧ c ≤ 'F' then c.toNat - 65 + 10
        else 99
      if digit ≥ base then .ok (value, was_separator, c :: rest)
      else
        let temp := value * base % 2 ^ 64
        if temp < value then .error "Number does not fit in a 64-bit integer."
        else
          let temp := (temp + digit) % 2 ^ 64
          if temp < value then .error "Number does not fit in a 64-bit integer."
          else parse_number_digits base rest temp false

/-- The suffix loop of `parse_number`: `l`/`L` (twice → `long long`,
three times → fatal), `u`/`U` (twice → fatal), floating-point markers and
anything else are fatal. -/
def parse_number_suffix : List Char → Bool → Bool → Bool →
    Except String (Bool × Bool × Bool)
  | [], u, l, ll => .ok (u, l, ll)
  | c :: rest, u, l, ll =>
    if c = 'l' ∨ c = 'L' then
      if ll then .error "`long long long` integer suffix is not supported."
      else if l then parse_number_suffix rest u false true
      else parse_number_suffix rest u true ll
    else if c = 'u' ∨ c = 'U' then
      if u then .error "Redundant `u` suffix on integer literal."
      else parse_number_suffix rest true l ll
    else if c = '.' ∨ c = 'e' ∨ c = 'E' ∨ c = 'p' ∨ c = 'P' then
      .error "TODO floating point literals are not yet supported"
    else .error "Malformed number literal."

/-- `parse_number` from parse_expr.c on the token's character string: base
detection from the `0x`/`0b`/`0` prefix, the separator restriction after a
non-octal prefix, digit accumulation, the trailing-separator check, suffix
parsing, and the type choice.  Returns the chosen base type and the value.
(The C code leaves `was_separator` uninitialised when no digit at all is
parsed; it is initialised to `false` here.) -/
def parse_number (chars : List Char) : Except String (base_t × Nat) :=
  let bp : Nat × List Char :=
    match chars with
    | '0' :: c :: rest =>
      if c = 'x' ∨ c = 'X' then (16, rest)
      else if c = 'b' ∨ c = 'B' then (2, rest)
      else (8, chars)
    | '0' :: [] => (8, chars)
    | _ => (10, chars)
  let base := bp.1
  let p := bp.2
  if base ≠ 8 ∧ p.head? = some '\'' then
    .error "A digit separator is not allowed between an 0x/0b prefix and the first digit."
  else
    match parse_number_digits base p 0 false with
    | .error msg => .error msg
    | .ok (value, was_separator, suffix_chars) =>
      if was_separator then
        .error "A digit separator is not allowed at the end of a number."
      else
        match parse_number_suffix suffix_chars false false false with
        | .error msg => .error msg
        | .ok (u, l, ll) => .ok (parse_number_type value base u l ll, value)

/-! ## src/core/cci/2-full/src/record.c — record layout

A member's type is summarised by the values record.c consults on it.
Modelled from the spec: `type_size` / `type_alignment` /
`type_is_flexible_array` live in type.c, which is not under `src/`; per the
spec's data model, `type_alignment` always returns a power of two (1, 2 or 4
for scalars, the computed power-of-two alignment for records), which enters
the theorems as a hypothesis.  Anonymous record members (`token == NULL`,
flattened via `record_add_anonymous_to_table`) are not modelled: every
member here is named, matching the claims' inputs. -/

/-- The facts about a member's type that `record_add` uses. -/
structure MemberTy where
  name : String
  size : Nat
  alignment : Nat
  flexible : Bool
deriving Repr, DecidableEq

/-- Round `x` up to a multiple of `a`.  For the power-of-two alignments
produced by `type_alignment` this is the C expression
`(x + a - 1) & ~(a - 1)`: clearing the low bits rounds `x + a - 1` down to
the next multiple of `a`. -/
def alignUp (x a : Nat) : Nat := (x + a - 1) / a * a

/-- A record under construction: `record_new` zero-initialises alignment and
size; the member list holds each member with its assigned offset.  For named
members the name→(member, offset) hashtable has exactly the member list's
entries, so it is represented by the list itself. -/
structure Record where
  is_struct : Bool
  alignment : Nat
  size : Nat
  member_list : List (MemberTy × Nat)
deriving Repr, DecidableEq

/-- `record_new` from record.c (`calloc` zeroes size and alignment). -/
def record_new (is_struct : Bool) : Record :=
  { is_struct := is_struct, alignment := 0, size := 0, member_list := [] }

/-- `record_find` from record.c restricted to named members: look the name up
in the member map. -/
def record_find (r : Record) (name : String) : Option (MemberTy × Nat) :=
  r.member_list.find? (fun me => me.1.name = name)

/-- `record_add` from record.c for a named member.  `none` is the fatal path:
a member after a flexible array member, a flexible array member in a union,
or a duplicate name (`record_add_to_table`).  Otherwise: offset = previous
end rounded up to the member's alignment (unions restart at 0), record
alignment = max, record size = max of the old size and the member's end
rounded up to the record alignment, a flexible array member contributing
zero extent. -/
def record_add (r : Record) (m : MemberTy) : Option Record :=
  -- if we have a previous member, it must not be a flexible array
  if (match r.member_list.getLast? with
      | some (lm, _) => lm.flexible
      | none => false) then none
  else if m.flexible ∧ ¬r.is_struct then none
  else
    -- determine offset of member
    let offset : Nat :=
      match r.member_list.getLast? with
      | some (lm, lo) => if r.is_struct then lo + lm.size else 0
      | none => 0
    -- update alignment
    let alignment := m.alignment
    let ralign := if r.alignment < alignment then alignment else r.alignment
    -- align member
    let offset := alignUp offset alignment
    -- add to table (duplicate check)
    if (record_find r m.name).isSome then none
    else
      -- calculate end of field, align record size
      let extent := if m.flexible then 0 else m.size
      let endPos := alignUp (offset + extent) ralign
      let newSize := if endPos > r.size then endPos else r.size
      some { r with
             alignment := ralign,
             size := newSize,
             member_list := r.member_list ++ [(m, offset)] }

/-- Add a list of members in order, failing if any single add is fatal. -/
def record_add_all (r : Record) : List MemberTy → Option Record
  | [] => some r
  | m :: ms =>
    match record_add r m with
    | none => none
    | some r' => record_add_all r' ms

/-- Parse a record definition's member list (`parse_record` /
`parse_record_member` feed each declarator to `record_add` in order;
`parse_record` performs no final size or alignment fix-up). -/
def buildRecord (is_struct : Bool) (ms : List MemberTy) : Option Record :=
  record_add_all (record_new is_struct) ms

/-! ## src/core/cci/2-full/src/parse_decl.c — function parameter lists

`parse_function_arguments` iterates over the comma-separated entries of a
parameter list before the closing `)`.  Token-level bookkeeping (the comma
between entries, specifier and declarator parsing, the `(void)` special
case) is abstracted: each entry is either one successfully parsed parameter
declaration or the `...` ellipsis. -/

/-- One comma-separated entry of a parameter list. -/
inductive ParamItem where
  | param
  | ellipsis
deriving Repr, DecidableEq

/-- The fatal outcomes of `parse_function_arguments`. -/
inductive ParamErr where
  | tooMany          -- "This function has too many parameters."
  | ellipsisFirst    -- "At least one non-variadic argument is required before `...`."
  | ellipsisNotLast  -- "Expected `)` after `...`"
deriving Repr, DecidableEq

/-- The loop of `parse_function_arguments` (`arg_capacity = 64`): the
capacity check `arg_count == arg_capacity` runs before an entry is examined
— in particular before the ellipsis check.  Returns the argument count and
the variadic flag. -/
def parse_function_arguments_loop (arg_count : Nat) :
    List ParamItem → Except ParamErr (Nat × Bool)
  | [] => .ok (arg_count, false)
  | item :: rest =>
    if arg_count = 64 then .error .tooMany
    else
      match item with
      | .ellipsis =>
        if arg_count = 0 then .error .ellipsisFirst
        else
          match rest with
          | [] => .ok (arg_count, true)
          | _ :: _ => .error .ellipsisNotLast
      | .param => parse_function_arguments_loop (arg_count + 1) rest

/-- `parse_function_arguments` from parse_decl.c on a list of entries. -/
def parse_function_arguments (items : List ParamItem) :
    Except ParamErr (Nat × Bool) :=
  parse_function_arguments_loop 0 items

/-! ## src/core/cci/1-opc/src/types.c — the opC type table

An open-addressing hashtable of 256 buckets over three parallel arrays.
A bucket is empty iff its name slot is NULL (`Option.none`).  The stored
objects (`type_t*` / `record_t*`) are an abstract type parameter `T`. -/

/-- Modelled from the spec: `fnv1a_cstr` is a string-hashing utility (§1
lists string primitives as out-of-scope utilities) not under `src/`; this is
the standard 32-bit FNV-1a the name denotes.  The claims' theorems do not
depend on the hash values, only on `types_find_bucket` being deterministic. -/
def fnv1a_cstr (s : String) : Nat :=
  s.toList.foldl (fun h c => (h ^^^ c.toNat) * 16777619 % 2 ^ 32) 2166136261

/-- `TAG_TYPEDEF` from types.c. -/
def TAG_TYPEDEF : Nat := 1

/-- The three parallel 256-entry arrays of types.c (`types_names`,
`types_tags`, `types_objects`).  `objects` entries are `Option` because the
`malloc`ed array starts uninitialised; an entry is `some` whenever its name
slot is occupied. -/
structure TypesTable (T : Type) where
  names : List (Option String)
  tags : List Nat
  objects : List (Option T)
deriving DecidableEq

/-- The probing loop of `types_find_bucket`: from the hash bucket, scan
forward (wrapping mod 256) for a matching occupied bucket or the first empty
bucket.  The C loop never terminates when the table is full of
non-matching entries; the fuel of 256 makes that case `none`. -/
def types_find_bucket_loop {T : Type} (tbl : TypesTable T) (name : String)
    (tag : Nat) : Nat → Nat → Option Nat
  | _, 0 => none
  | index, fuel + 1 =>
    match tbl.names.get? index with
    | none => none
    | some bucket_name =>
      match bucket_name with
      | some bn =>
        if tbl.tags.get? index = some tag ∧ bn = name then some index
        else types_find_bucket_loop tbl name tag ((index + 1) % 256) fuel
      | none => some index

/-- `types_find_bucket` from types.c: hash is `fnv1a_cstr(name) + tag * 31`,
masked with `types_buckets - 1 = 255`. -/
def types_find_bucket {T : Type} (tbl : TypesTable T) (name : String)
    (tag : Nat) : Option Nat :=
  types_find_bucket_loop tbl name tag ((fnv1a_cstr name + tag * 31) % 256) 256

/-- `types_add_typedef` from types.c.  If the bucket is occupied the typedef
already exists: the new name and type are freed and the existing object is
returned with the table untouched.  Otherwise the new binding is written
into the bucket.  `none` covers the unterminating-probe case and malformed
tables (out-of-range index / empty object under an occupied name), neither
of which arises for well-formed 256-entry tables. -/
def types_add_typedef {T : Type} (tbl : TypesTable T) (name : String)
    (ty : T) : Option (TypesTable T × T) :=
  match types_find_bucket tbl name TAG_TYPEDEF with
  | none => none
  | some index =>
    match tbl.names.get? index with
    | some (some _) =>
      match tbl.objects.get? index with
      | some (some obj) => some (tbl, obj)
      | _ => none
    | some none =>
      some ({ names := tbl.names.set index (some name),
              tags := tbl.tags.set index TAG_TYPEDEF,
              objects := tbl.objects.set index (some ty) }, ty)
    | none => none

/-- `types_find_typedef` (via `types_find_object`) from types.c: the object
in the matching occupied bucket, or NULL (`none`). -/
def types_find_typedef {T : Type} (tbl : TypesTable T) (name : String) :
    Option T :=
  match types_find_bucket tbl name TAG_TYPEDEF with
  | none => none
  | some index =>
    match tbl.names.get? index with
    | some (some _) =>
      match tbl.objects.get? index with
      | some (some obj) => some obj
      | _ => none
    | _ => none

/-- A fresh types table (`types_init`: 256 buckets, names `calloc`ed to NULL,
tags and objects uninitialised — tags modelled as 0, objects as `none`). -/
def types_init (T : Type) : TypesTable T :=
  { names := List.replicate 256 none,
    tags := List.replicate 256 0,
    objects := List.replicate 256 none }

/-- A concrete one-entry table used by the C10 witness: the result of adding
a typedef of `"foo"` to type `1` to a fresh table. -/
def typesTableFoo : TypesTable Nat :=
  match types_add_typedef (types_init Nat) "foo" 1 with
  | some (tbl, _) => tbl
  | none => types_init Nat

/-! ## src/core/cci/2-full/src/parse_expr.c and function.c — `__func__`

`parse_builtin_func` writes through the full stage's emitter (emit.c, not
under `src/`); each `emit_*` call is modelled as one abstract output event.
The label prefix `STRING_LABEL_PREFIX` and the indent `ASM_INDENT` are
byte-string constants from headers not under `src/` and are parameters. -/

/-- One emitter call made by `parse_builtin_func`. -/
inductive EmitEv where
  | srcLoc                    -- emit_source_location(lexer_token)
  | ch (c : Char)             -- emit_char
  | cstr (s : String)         -- emit_cstr
  | hexNum (n : Nat)          -- emit_hex_number
  | newline                   -- emit_newline
  | str_lit (s : String)      -- emit_string_literal
  | quotedByte (b : Nat)      -- emit_quoted_byte
deriving Repr, DecidableEq

/-- The per-function state `parse_builtin_func` works on: the current
function's `name_label` field, the parser-global `next_string` counter, and
the emitted output. -/
structure FuncState where
  name_label : Int
  next_string : Nat
  out : List EmitEv
deriving Repr, DecidableEq

/-- `function_new` from function.c initialises `name_label` to -1 (and
`variadic_offset`, which `__func__` never touches). -/
def function_new (next_string : Nat) : FuncState :=
  { name_label := -1, next_string := next_string, out := [] }

/-- `parse_builtin_func` from parse_expr.c: on the first reference
(`name_label == -1`) allocate the next string label, emit the function name
as its own `'@'`-defined symbol, and store the label; afterwards reuse the
stored label.  Returns the `string_label` given to the string node.  (The
node/type construction and the `optimization` tree shape do not affect the
emitted output or the label and are elided.) -/
def parse_builtin_func (stringLabelPfx asmIndent fname : String)
    (st : FuncState) : FuncState × Int :=
  if st.name_label = -1 then
    let lbl : Nat := st.next_string
    { name_label := (lbl : Int),
      next_string := st.next_string + 1,
      out := st.out ++
        [.srcLoc, .ch '@', .cstr stringLabelPfx, .hexNum lbl, .newline,
         .cstr asmIndent, .str_lit fname, .newline,
         .cstr asmIndent, .quotedByte 0, .newline, .newline] }
    |> fun st2 => (st2, (lbl : Int))
  else (st, st.name_label)

/-- `n` successive references to `__func__` inside one function: the state
after all of them, and the label each reference received. -/
def parse_builtin_func_iter (stringLabelPfx asmIndent fname : String) :
    Nat → FuncState → FuncState × List Int
  | 0, st => (st, [])
  | n + 1, st =>
    let p := parse_builtin_func stringLabelPfx asmIndent fname st
    let q := parse_builtin_func_iter stringLabelPfx asmIndent fname n p.1
    (q.1, p.2 :: q.2)

/-- The number of `'@'` label definitions in an event stream.  In the
assembly output `'@'` introduces exactly a global label definition (§6 of
the spec), so this counts emitted label definitions. -/
def countLabelDefs (out : List EmitEv) : Nat :=
  out.countP (fun ev => match ev with | .ch '@' => true | _ => false)

/-! ### Support definitions for the record-layout proofs -/

/-- The names already present in a record's member map. -/
def namesOf (r : Record) : List String :=
  r.member_list.map (fun p => p.1.name)

/-- Whether the record's current last member is a flexible array (`false`
for an empty record). -/
def lastFlex (r : Record) : Bool :=
  match r.member_list.getLast? with
  | some (lm, _) => lm.flexible
  | none => false

/-- The unaligned end of the record's data: last member's offset plus its
extent (a flexible array member has extent zero). -/
def dataEnd (r : Record) : Nat :=
  match r.member_list.getLast? with
  | some (lm, lo) => lo + (if lm.flexible then 0 else lm.size)
  | none => 0

/-- The condition under which a sequence of `record_add` calls succeeds,
threading the flexible-array status of the previous member: each add
requires the previous member not to be flexible, and a flexible member
requires a struct. -/
def addsOk (is_struct : Bool) : Bool → List MemberTy → Prop
  | _, [] => True
  | lf, m :: rest =>
    lf = false ∧ (m.flexible = true → is_struct = true) ∧ addsOk is_struct m.flexible rest

/-- The layout invariant maintained by `record_add`: a fresh record has
alignment and size zero; a non-empty record's alignment is a power of two
(given power-of-two member alignments); every member offset is a multiple of
that member's alignment; and for a struct, the size is the data end rounded
up to the record alignment. -/
def RecordInv (r : Record) : Prop :=
  (r.member_list = [] → r.alignment = 0 ∧ r.size = 0) ∧
  (r.member_list ≠ [] → ∃ k, r.alignment = 2 ^ k) ∧
  (∀ p ∈ r.member_list, p.2 % p.1.alignment = 0) ∧
  (r.is_struct = true → r.size = alignUp (dataEnd r) r.alignment)

/-- The offset `record_add` assigns to a new member: previous end (0 in a
union or an empty record) rounded up to the member's alignment. -/
def memberOffset (r : Record) (m : MemberTy) : Nat :=
  alignUp
    (match r.member_list.getLast? with
     | some (lm, lo) => if r.is_struct then lo + lm.size else 0
     | none => 0)
    m.alignment

/-- The record alignment after adding a member: the max. -/
def newAlign (r : Record) (m : MemberTy) : Nat :=
  if r.alignment < m.alignment then m.alignment else r.alignment

/-- The record size after adding a member: the member's aligned end if it
grew past the old size. -/
def newSizeF (r : Record) (m : MemberTy) : Nat :=
  let endPos := alignUp (memberOffset r m + (if m.flexible then 0 else m.size))
    (newAlign r m)
  if endPos > r.size then endPos else r.size

/-!
# Theorems
-/

/-- **C1** (code_bug).  The claim (and the spec's §6 table) says the emitted
`CALL` symbol is determined by operator *and* type — subtraction of
`long long` calls `__llong_sub`, division of floats calls `__float_div`.
Evaluating the generator at those inputs shows `generate_simple_arithmetic`
ignores its `llong_func`/`float_func`/`double_func` arguments and always
emits the `add` symbols: a `long long` subtraction emits
`CALL __llong_add` and no `CALL __llong_sub`; an (unsigned) float division
emits `CALL __float_add` and no `CALL __float_div`. -/
theorem c1_sub_of_llong_calls_llong_add :
    ((generate_sub ⟨8, true, false, false⟩ 0 (fun _ => []) (fun _ => [])).contains
      (Instr.mk .CALL [.lblref '^' "__llong_add"]) = true) ∧
    ((generate_sub ⟨8, true, false, false⟩ 0 (fun _ => []) (fun _ => [])).contains
      (Instr.mk .CALL [.lblref '^' "__llong_sub"]) = false) ∧
    ((generate_div_unsigned ⟨4, false, true, false⟩ 0 (fun _ => []) (fun _ => [])).contains
      (Instr.mk .CALL [.lblref '^' "__float_add"]) = true) ∧
    ((generate_div_unsigned ⟨4, false, true, false⟩ 0 (fun _ => []) (fun _ => [])).contains
      (Instr.mk .CALL [.lblref '^' "__float_div"]) = false) := by
  decide

/-- **C3** (code_bug).  The claim says `\0` yields a single zero byte while
`\x`/`\u` fail with an unsupported-escape error.  In the source, `case '0'`
is a `fatal` too: lexing `"\0"` aborts with the octal-unsupported message
instead of producing a zero byte (the `\x`/`\u` halves do fail as claimed). -/
theorem c3_escape_zero_is_fatal :
    lexer_consume_escape_sequence '0'
      = .error "Octal escape sequences are not yet supported." ∧
    lexer_consume_string_literal ['\\', '0', '"'] []
      = .error "Octal escape sequences are not yet supported." ∧
    lexer_consume_escape_sequence 'x'
      = .error "Hexadecimal escape sequences are not supported in opC." ∧
    lexer_consume_escape_sequence 'u'
      = .error "Unicode escape sequences are not supported in opC." ∧
    lexer_consume_string_literal ['a', '\\', 'n', 'b', '"'] []
      = .ok (['a', Char.ofNat 10, 'b'], []) := by
  decide

/-- **C5** (confirmed).  A decimal literal with value `2^31` and no suffix
gets type `signed long long`; a hexadecimal literal of the same value with
no suffix gets `unsigned int`. -/
theorem c5_decimal_vs_hex_2_pow_31 :
    parse_number "2147483648".toList = .ok (.BASE_SIGNED_LONG_LONG, 2 ^ 31) ∧
    parse_number "0x80000000".toList = .ok (.BASE_UNSIGNED_INT, 2 ^ 31) := by
  decide

/-- After the first reference, `parse_builtin_func` is the identity and
returns the stored label. -/
theorem parse_builtin_func_stable (pfx ind fname : String) (st : FuncState)
    (h : st.name_label ≠ -1) :
    parse_builtin_func pfx ind fname st = (st, st.name_label) := by
  simp [parse_builtin_func, h]

/-- Iterating from a state whose label is already set changes nothing. -/
theorem parse_builtin_func_iter_stable (pfx ind fname : String) :
    ∀ (n : Nat) (st : FuncState), st.name_label ≠ -1 →
    parse_builtin_func_iter pfx ind fname n st = (st, List.replicate n st.name_label)
  | 0, _, _ => rfl
  | n + 1, st, h => by
    simp only [parse_builtin_func_iter, parse_builtin_func_stable pfx ind fname st h]
    rw [parse_builtin_func_iter_stable pfx ind fname n st h]
    rfl

/-- **C7** (confirmed).  Starting from a fresh function (`function_new`
initialises `name_label` to -1), any positive number of `__func__`
references emits exactly one `'@'` label definition, every reference
receives the same label (the `next_string` value at the first reference),
and that label is stored in `name_label`. -/
theorem c7_func_label_unique (pfx ind fname : String) (ns n : Nat) :
    countLabelDefs (parse_builtin_func_iter pfx ind fname (n + 1) (function_new ns)).1.out = 1 ∧
    (parse_builtin_func_iter pfx ind fname (n + 1) (function_new ns)).2
      = List.replicate (n + 1) (ns : Int) ∧
    (parse_builtin_func_iter pfx ind fname (n + 1) (function_new ns)).1.name_label = (ns : Int) := by
  have hfirst : parse_builtin_func pfx ind fname (function_new ns)
      = ({ name_label := (ns : Int), next_string := ns + 1,
           out := [.srcLoc, .ch '@', .cstr pfx, .hexNum ns, .newline,
                   .cstr ind, .str_lit fname, .newline,
                   .cstr ind, .quotedByte 0, .newline, .newline] }, (ns : Int)) := by
    simp [parse_builtin_func, function_new]
  have hne : ((ns : Int)) ≠ -1 := by omega
  simp only [parse_builtin_func_iter, hfirst]
  rw [parse_builtin_func_iter_stable pfx ind fname n _ hne]
  refine ⟨rfl, rfl, rfl⟩

/-- **C10** (confirmed).  If a typedef is already registered under a name,
`types_add_typedef` for that name returns the previously registered type and
leaves the table unchanged — the new type is discarded without an error,
whatever it is. -/
theorem c10_typedef_first_binding_wins {T : Type} (tbl : TypesTable T)
    (name : String) (t0 t : T)
    (h : types_find_typedef tbl name = some t0) :
    types_add_typedef tbl name t = some (tbl, t0) := by
  unfold types_find_typedef at h
  unfold types_add_typedef
  simp only [List.get?_eq_getElem?] at h ⊢
  cases hb : types_find_bucket tbl name TAG_TYPEDEF with
  | none => simp [hb] at h
  | some index =>
    simp only [hb] at h ⊢
    cases hn : tbl.names[index]? with
    | none => simp [hn] at h
    | some bn =>
      cases bn with
      | none => simp [hn] at h
      | some s =>
        simp only [hn] at h ⊢
        cases ho : tbl.objects[index]? with
        | none => simp [ho] at h
        | some ob =>
          cases ob with
          | none => simp [ho] at h
          | some obj =>
            simp only [ho, Option.some.injEq] at h ⊢
            subst h
            rfl

set_option maxRecDepth 4000 in
/-- Witness for C10: a table holding `typedef … foo` bound to type `1`;
adding `typedef … foo` for the different type `2` returns type `1` and the
unchanged table. -/
theorem c10_witness :
    types_find_typedef typesTableFoo "foo" = some 1 ∧
    types_add_typedef typesTableFoo "foo" 2 = some (typesTableFoo, 1) :=
  ⟨by decide, c10_typedef_first_binding_wins typesTableFoo "foo" 1 2 (by decide)⟩



/-- The too-many-parameters fatal of the parameter loop fires exactly when,
counting from the current `arg_count`, the remaining entries overrun the
capacity of 64 with parameters alone. -/
theorem parse_function_arguments_loop_tooMany :
    ∀ (items : List ParamItem) (c : Nat), c ≤ 64 →
    (parse_function_arguments_loop c items = .error .tooMany ↔
      (64 - c < items.length ∧ items.take (64 - c) = List.replicate (64 - c) .param))
  | [], c, hc => by
    simp [parse_function_arguments_loop]
  | it :: rest, c, hc => by
    by_cases h64 : c = 64
    · subst h64
      simp [parse_function_arguments_loop]
    · have hlt : c < 64 := lt_of_le_of_ne hc h64
      have heq : 64 - c = (64 - (c + 1)) + 1 := by omega
      cases it with
      | ellipsis =>
        rw [heq]
        simp only [parse_function_arguments_loop, if_neg h64]
        constructor
        · intro h
          by_cases hc0 : c = 0
          · simp [hc0] at h
          · cases rest with
            | nil => simp [hc0] at h
            | cons a l => simp [hc0] at h
        · rintro ⟨-, htake⟩
          rw [List.replicate_succ] at htake
          simp at htake
      | param =>
        rw [heq]
        simp only [parse_function_arguments_loop, if_neg h64]
        rw [parse_function_arguments_loop_tooMany rest (c + 1) (by omega)]
        rw [List.replicate_succ]
        simp only [List.length_cons, List.take_succ_cons, List.cons.injEq, true_and]
        constructor
        · rintro ⟨h1, h2⟩
          exact ⟨by omega, h2⟩
        · rintro ⟨h1, h2⟩
          exact ⟨by omega, h2⟩



/-- A run of parameters advances the counter while capacity remains. -/
theorem parse_function_arguments_loop_params :
    ∀ (n c : Nat), c + n ≤ 64 →
    parse_function_arguments_loop c (List.replicate n .param) = .ok (c + n, false)
  | 0, c, _ => by simp [parse_function_arguments_loop]
  | n + 1, c, h => by
    rw [List.replicate_succ]
    simp only [parse_function_arguments_loop, if_neg (by omega : ¬c = 64)]
    rw [parse_function_arguments_loop_params n (c + 1) (by omega)]
    congr 2
    omega

/-- A run of parameters followed by `...` succeeds while at most 63 named
parameters precede the ellipsis (and at least one does). -/
theorem parse_function_arguments_loop_variadic :
    ∀ (n c : Nat), c + n ≤ 63 → 1 ≤ c + n →
    parse_function_arguments_loop c (List.replicate n .param ++ [.ellipsis]) = .ok (c + n, true)
  | 0, c, h63, h1 => by
    simp only [List.replicate, List.nil_append, parse_function_arguments_loop]
    rw [if_neg (by omega : ¬c = 64), if_neg (by omega : ¬c = 0)]
    simp
  | n + 1, c, h63, h1 => by
    rw [List.replicate_succ, List.cons_append]
    simp only [parse_function_arguments_loop, if_neg (by omega : ¬c = 64)]
    rw [parse_function_arguments_loop_variadic n (c + 1) (by omega) (by omega)]
    congr 2
    omega

/-- Counterexample for **C9**: a prototype with exactly 64 parameters and a
trailing `...` is rejected with the too-many-parameters fatal, although no
65th *parameter* is encountered — the 65th comma-separated entry is the
ellipsis. -/
theorem c9_counterexample :
    parse_function_arguments (List.replicate 64 ParamItem.param ++ [ParamItem.ellipsis])
      = .error .tooMany ∧
    (List.replicate 64 ParamItem.param ++ [ParamItem.ellipsis]).count ParamItem.param = 64 := by
  decide

/-- **C9** (corrected).  The too-many-parameters fatal fires exactly when a
65th comma-separated entry of the parameter list (parameter *or* ellipsis)
is encountered after 64 parameters; prototypes with up to 64 parameters are
accepted, and variadic prototypes with up to 63 named parameters before the
`...` are accepted. -/
theorem c9_param_limit (items : List ParamItem) :
    (parse_function_arguments items = .error .tooMany ↔
      (64 < items.length ∧ items.take 64 = List.replicate 64 .param)) ∧
    (∀ n, n ≤ 64 →
      parse_function_arguments (List.replicate n .param) = .ok (n, false)) ∧
    (∀ n, 1 ≤ n → n ≤ 63 →
      parse_function_arguments (List.replicate n .param ++ [.ellipsis]) = .ok (n, true)) := by
  refine ⟨?_, ?_, ?_⟩
  · have h := parse_function_arguments_loop_tooMany items 0 (by omega)
    simpa [parse_function_arguments] using h
  · intro n hn
    have h := parse_function_arguments_loop_params n 0 (by omega)
    simpa [parse_function_arguments] using h
  · intro n h1 h63
    have h := parse_function_arguments_loop_variadic n 0 (by omega) (by omega)
    simpa [parse_function_arguments] using h

/-- Witness for C9: 65 parameters are too many, 64 are accepted, and 63
named parameters plus `...` are accepted. -/
theorem c9_witness :
    parse_function_arguments (List.replicate 65 .param) = .error .tooMany ∧
    parse_function_arguments (List.replicate 64 .param) = .ok (64, false) ∧
    parse_function_arguments (List.replicate 63 .param ++ [.ellipsis]) = .ok (63, true) :=
  ⟨(c9_param_limit _).1.mpr (by decide),
   (c9_param_limit []).2.1 64 (by norm_num),
   (c9_param_limit []).2.2 63 (by norm_num) (by norm_num)⟩

end Onramp

namespace Onramp

/-- Every emitter operation only appends to the output. -/
theorem out_mono_emit_char (c : Char) (e : EmitState) : e.out <+: (emit_char c e).out :=
  ⟨[c], rfl⟩

theorem out_mono_emit_string (s : String) (e : EmitState) : e.out <+: (emit_string s e).out :=
  ⟨s.toList, rfl⟩

theorem out_mono_emit_newline (e : EmitState) : e.out <+: (emit_newline e).out :=
  ⟨['\n'], rfl⟩

theorem out_mono_emit_term (k : String) (e : EmitState) : e.out <+: (emit_term k e).out := by
  unfold emit_term
  cases hft : e.first_term <;>
    simp [hft, emit_string, emit_char, List.append_assoc]

theorem out_mono_emit_label (ty : Char) (n : String) (e : EmitState) :
    e.out <+: (emit_label ty n e).out := by
  simp [emit_label, emit_string, emit_char, List.append_assoc]

theorem out_mono_emit_prefixed_label (ty : Char) (p n : String) (e : EmitState) :
    e.out <+: (emit_prefixed_label ty p n e).out := by
  simp [emit_prefixed_label, emit_string, emit_char, List.append_assoc]

theorem out_mono_emit_int_state (v : Int) (e : EmitState) :
    e.out <+: (emit_int_state v e).out :=
  ⟨emit_int v, rfl⟩

theorem out_mono_emit_global_divider (e : EmitState) :
    e.out <+: (emit_global_divider e).out :=
  ((out_mono_emit_newline e).trans (out_mono_emit_newline _)).trans (out_mono_emit_newline _)

/-- Both frame-size branches of `compile_function_close` only append. -/
theorem out_mono_frame_small (fs : Nat) (x : EmitState) :
    x.out <+: (if fs > 0 then
      (if fs < 0x80 then
        emit_newline (emit_int_state (fs : Int)
          (emit_term "rsp" (emit_term "rsp" (emit_term "sub" x))))
      else x)
    else x).out := by
  split
  · split
    · exact (((out_mono_emit_term "sub" x).trans (out_mono_emit_term "rsp" _)).trans
        ((out_mono_emit_term "rsp" _).trans ((out_mono_emit_int_state _ _).trans
          (out_mono_emit_newline _))))
    · exact List.prefix_rfl
  · exact List.prefix_rfl

theorem out_mono_frame_large (fs : Nat) (x : EmitState) :
    x.out <+: (if fs ≥ 0x80 then
      emit_newline (emit_term "r9" (emit_term "rsp" (emit_term "rsp" (emit_term "sub"
        (emit_newline (emit_int_state (fs : Int)
          (emit_term "r9" (emit_term "imw" x))))))))
    else x).out := by
  split
  · exact (((out_mono_emit_term "imw" x).trans (out_mono_emit_term "r9" _)).trans
      (((out_mono_emit_int_state _ _).trans (out_mono_emit_newline _)).trans
        (((out_mono_emit_term "sub" _).trans (out_mono_emit_term "rsp" _)).trans
          (((out_mono_emit_term "rsp" _).trans (out_mono_emit_term "r9" _)).trans
            (out_mono_emit_newline _)))))
  · exact List.prefix_rfl

/-- **C2** (confirmed).  For every function (any name, any storage class
other than typedef, any frame size), the epilogue emitted when the body
falls off the end starts with `zero r0` and then `leave; ret`, so every
function that falls off the end returns zero — the main-only condition is
commented out in the source. -/
theorem c2_fall_through_returns_zero (name : String) (storage : storage_t)
    (locals_frame_size : Nat) (e : EmitState)
    (hft : e.first_term = true) (hst : storage ≠ .typedef_s) :
    ∃ e2, compile_function_close name storage locals_frame_size e = some e2 ∧
      (e.out ++ "  zero r0 \n  leave \n  ret \n".toList) <+: e2.out := by
  obtain ⟨glyph, hglyph⟩ : ∃ g, compile_storage_glyph storage = some g := by
    cases storage with
    | typedef_s => exact absurd rfl hst
    | default_s => exact ⟨'=', rfl⟩
    | extern_s => exact ⟨'=', rfl⟩
    | static_s => exact ⟨'@', rfl⟩
  unfold compile_function_close
  rw [hglyph]
  refine ⟨_, rfl, ?_⟩
  have h7 : (emit_newline (emit_term "ret" (emit_newline (emit_term "leave"
      (emit_newline (emit_term "r0" (emit_term "zero" e))))))).out
      = e.out ++ "  zero r0 \n  leave \n  ret \n".toList := by
    simp [emit_term, emit_newline, emit_char, emit_string, hft, List.append_assoc]
  rw [← h7]
  set e7 := emit_newline (emit_term "ret" (emit_newline (emit_term "leave"
      (emit_newline (emit_term "r0" (emit_term "zero" e)))))) with he7
  have step1 : e7.out <+: (emit_newline (emit_term "enter"
      (emit_newline (emit_label glyph name (emit_newline e7))))).out :=
    ((out_mono_emit_newline e7).trans (out_mono_emit_label glyph name _)).trans
      ((out_mono_emit_newline _).trans ((out_mono_emit_term "enter" _).trans
        (out_mono_emit_newline _)))
  exact step1.trans (((out_mono_frame_small locals_frame_size _).trans
    (out_mono_frame_large locals_frame_size _)).trans
    (((out_mono_emit_term "jmp" _).trans
      (out_mono_emit_prefixed_label '^' "_F_" name _)).trans
      (out_mono_emit_global_divider _)))

/-- Witness for C2: closing a function named `f` with default storage and an
empty frame from a fresh line emits the zero-return epilogue. -/
theorem c2_witness :
    (⟨[], true⟩ : EmitState).first_term = true ∧
    storage_t.default_s ≠ storage_t.typedef_s ∧
    ∃ e2, compile_function_close "f" .default_s 0 ⟨[], true⟩ = some e2 ∧
      ((⟨[], true⟩ : EmitState).out ++ "  zero r0 \n  leave \n  ret \n".toList) <+: e2.out :=
  ⟨rfl, by decide,
   c2_fall_through_returns_zero "f" .default_s 0 ⟨[], true⟩ rfl (by decide)⟩

end Onramp

namespace Onramp

theorem alignUp_mod (x a : Nat) : alignUp x a % a = 0 := by
  unfold alignUp
  exact Nat.mul_mod_left _ _

theorem dvd_alignUp (x a : Nat) : a ∣ alignUp x a :=
  Dvd.intro_left _ rfl

theorem le_alignUp (x a : Nat) (ha : 1 ≤ a) : x ≤ alignUp x a := by
  unfold alignUp
  have h := Nat.lt_div_mul_add (a := x + a - 1) (b := a) (by omega)
  omega

theorem alignUp_le_alignUp_left {x y : Nat} (a : Nat) (h : x ≤ y) :
    alignUp x a ≤ alignUp y a := by
  unfold alignUp
  exact Nat.mul_le_mul_right a (Nat.div_le_div_right (by omega))

theorem alignUp_le_of_dvd_of_le {x y a : Nat} (hdvd : a ∣ y) (hle : x ≤ y) :
    alignUp x a ≤ y := by
  cases Nat.eq_zero_or_pos a with
  | inl h0 => subst h0; simp [alignUp]
  | inr hpos =>
    obtain ⟨k, rfl⟩ := hdvd
    unfold alignUp
    have h1 : x + a - 1 ≤ (a - 1) + a * k := by
      have := Nat.mul_comm a k
      omega
    have h2 : (x + a - 1) / a ≤ ((a - 1) + a * k) / a := Nat.div_le_div_right h1
    have h3 : ((a - 1) + a * k) / a = (a - 1) / a + k := Nat.add_mul_div_left _ k hpos
    have h4 : (a - 1) / a = 0 := Nat.div_eq_of_lt (by omega)
    have h5 : (x + a - 1) / a ≤ k := by omega
    calc (x + a - 1) / a * a ≤ k * a := Nat.mul_le_mul_right a h5
    _ = a * k := Nat.mul_comm k a

theorem alignUp_le_alignUp_dvd (x : Nat) {a b : Nat} (hdvd : a ∣ b) (hb : 1 ≤ b) :
    alignUp x a ≤ alignUp x b :=
  alignUp_le_of_dvd_of_le (hdvd.trans (dvd_alignUp x b)) (le_alignUp x b hb)

end Onramp

namespace Onramp

theorem record_find_isSome (r : Record) (n : String) :
    ((record_find r n).isSome = true) ↔ n ∈ namesOf r := by
  simp only [record_find, namesOf, List.find?_isSome, List.mem_map]
  constructor
  · rintro ⟨p, hp, hpn⟩
    exact ⟨p, hp, by simpa using hpn⟩
  · rintro ⟨p, hp, hpn⟩
    exact ⟨p, hp, by simpa using hpn⟩

/-- `record_add` in closed form: the fatal conditions, and the resulting
record's fields. -/
theorem record_add_eq (r : Record) (m : MemberTy) :
    record_add r m =
      if lastFlex r = false ∧ (m.flexible = true → r.is_struct = true) ∧
          m.name ∉ namesOf r then
        some { is_struct := r.is_struct, alignment := newAlign r m,
               size := newSizeF r m,
               member_list := r.member_list ++ [(m, memberOffset r m)] }
      else none := by
  have hfindSome := record_find_isSome r m.name
  have hcondN : ∀ (hc : ¬(lastFlex r = false ∧ (m.flexible = true → r.is_struct = true) ∧
      m.name ∉ namesOf r)) (x : Option Record),
      (if lastFlex r = false ∧ (m.flexible = true → r.is_struct = true) ∧
          m.name ∉ namesOf r then x else none) = none := fun hc x => if_neg hc
  have hcondP : ∀ (hc : lastFlex r = false ∧ (m.flexible = true → r.is_struct = true) ∧
      m.name ∉ namesOf r) (x : Option Record),
      (if lastFlex r = false ∧ (m.flexible = true → r.is_struct = true) ∧
          m.name ∉ namesOf r then x else none) = x := fun hc x => if_pos hc
  unfold record_add
  cases hl : r.member_list.getLast? with
  | none =>
    have hlf : lastFlex r = false := by simp [lastFlex, hl]
    simp only [hl]
    rw [if_neg (show ¬(false = true) by simp)]
    by_cases hflex : m.flexible = true
    · by_cases hs : r.is_struct = true
      · rw [if_neg (show ¬(m.flexible = true ∧ ¬r.is_struct = true) from fun hc => hc.2 hs)]
        by_cases hdup : m.name ∈ namesOf r
        · rw [if_pos (show (record_find r m.name).isSome = true from hfindSome.2 hdup),
            hcondN (fun hc => hc.2.2 hdup) _]
        · rw [if_neg (show ¬(record_find r m.name).isSome = true from
              fun hc => hdup (hfindSome.1 hc)),
            hcondP ⟨hlf, fun _ => hs, hdup⟩ _]
          simp [memberOffset, newAlign, newSizeF, hl]
      · rw [if_pos (show m.flexible = true ∧ ¬r.is_struct = true from ⟨hflex, hs⟩),
          hcondN (fun hc => hs (hc.2.1 hflex)) _]
    · rw [if_neg (show ¬(m.flexible = true ∧ ¬r.is_struct = true) from fun hc => hflex hc.1)]
      by_cases hdup : m.name ∈ namesOf r
      · rw [if_pos (show (record_find r m.name).isSome = true from hfindSome.2 hdup),
          hcondN (fun hc => hc.2.2 hdup) _]
      · rw [if_neg (show ¬(record_find r m.name).isSome = true from
            fun hc => hdup (hfindSome.1 hc)),
          hcondP ⟨hlf, fun hf => absurd hf hflex, hdup⟩ _]
        simp [memberOffset, newAlign, newSizeF, hl]
  | some p =>
    obtain ⟨lm, lo⟩ := p
    simp only [hl]
    by_cases hlast : lm.flexible = true
    · have hlf : lastFlex r = true := by simp [lastFlex, hl, hlast]
      rw [if_pos (show lm.flexible = true from hlast),
        hcondN (fun hc => by rw [hlf] at hc; exact absurd hc.1 (by simp)) _]
    · have hlast2 : lm.flexible = false := by simpa using hlast
      have hlf : lastFlex r = false := by simp [lastFlex, hl, hlast2]
      rw [if_neg (show ¬(lm.flexible = true) from hlast)]
      by_cases hflex : m.flexible = true
      · by_cases hs : r.is_struct = true
        · rw [if_neg (show ¬(m.flexible = true ∧ ¬r.is_struct = true) from fun hc => hc.2 hs)]
          by_cases hdup : m.name ∈ namesOf r
          · rw [if_pos (show (record_find r m.name).isSome = true from hfindSome.2 hdup),
              hcondN (fun hc => hc.2.2 hdup) _]
          · rw [if_neg (show ¬(record_find r m.name).isSome = true from
                fun hc => hdup (hfindSome.1 hc)),
              hcondP ⟨hlf, fun _ => hs, hdup⟩ _]
            simp [memberOffset, newAlign, newSizeF, hl]
        · rw [if_pos (show m.flexible = true ∧ ¬r.is_struct = true from ⟨hflex, hs⟩),
            hcondN (fun hc => hs (hc.2.1 hflex)) _]
      · rw [if_neg (show ¬(m.flexible = true ∧ ¬r.is_struct = true) from fun hc => hflex hc.1)]
        by_cases hdup : m.name ∈ namesOf r
        · rw [if_pos (show (record_find r m.name).isSome = true from hfindSome.2 hdup),
            hcondN (fun hc => hc.2.2 hdup) _]
        · rw [if_neg (show ¬(record_find r m.name).isSome = true from
              fun hc => hdup (hfindSome.1 hc)),
            hcondP ⟨hlf, fun hf => absurd hf hflex, hdup⟩ _]
          simp [memberOffset, newAlign, newSizeF, hl]

end Onramp

namespace Onramp

theorem record_add_some_is_struct (r : Record) (m : MemberTy) (r2 : Record)
    (h : record_add r m = some r2) : r2.is_struct = r.is_struct := by
  rw [record_add_eq] at h
  split at h
  · simp only [Option.some.injEq] at h
    subst h
    rfl
  · exact absurd h (by simp)

theorem record_add_all_isSome : ∀ (ms : List MemberTy) (r : Record),
    (∀ m ∈ ms, m.name ∉ namesOf r) → ((ms.map MemberTy.name).Nodup) →
    (((record_add_all r ms).isSome = true) ↔ addsOk r.is_struct (lastFlex r) ms)
  | [], r, _, _ => by simp [record_add_all, addsOk]
  | m :: rest, r, hfresh, hnd => by
    have hnd2 : (m.name :: rest.map MemberTy.name).Nodup := by simpa using hnd
    simp only [record_add_all]
    rw [record_add_eq r m]
    by_cases hcond : lastFlex r = false ∧ (m.flexible = true → r.is_struct = true) ∧
        m.name ∉ namesOf r
    · rw [if_pos hcond]
      set r2 : Record :=
        { is_struct := r.is_struct, alignment := newAlign r m, size := newSizeF r m,
          member_list := r.member_list ++ [(m, memberOffset r m)] } with hr2
      have hlast2 : lastFlex r2 = m.flexible := by
        simp [hr2, lastFlex, List.getLast?_concat]
      have hnames2 : namesOf r2 = namesOf r ++ [m.name] := by
        simp [hr2, namesOf]
      have hfresh2 : ∀ m2 ∈ rest, m2.name ∉ namesOf r2 := by
        intro m2 hm2
        rw [hnames2]
        simp only [List.mem_append, List.mem_singleton]
        rintro (h | h)
        · exact hfresh m2 (List.mem_cons_of_mem _ hm2) h
        · exact (List.nodup_cons.mp hnd2).1 (h ▸ List.mem_map_of_mem _ hm2)
      have ih := record_add_all_isSome rest r2 hfresh2 (List.nodup_cons.mp hnd2).2
      show ((record_add_all r2 rest).isSome = true) ↔ _
      rw [ih, hlast2]
      show addsOk r.is_struct m.flexible rest ↔ addsOk r.is_struct (lastFlex r) (m :: rest)
      constructor
      · intro h
        rw [hcond.1]
        exact ⟨rfl, hcond.2.1, h⟩
      · intro h
        exact h.2.2
    · rw [if_neg hcond]
      show ((none : Option Record).isSome = true) ↔ _
      simp only [Option.isSome_none, Bool.false_eq_true, false_iff]
      intro h
      exact hcond ⟨h.1, h.2.1, hfresh m (List.mem_cons_self m rest)⟩

theorem addsOk_false_iff (s : Bool) : ∀ (ms : List MemberTy),
    addsOk s false ms ↔
      ((∀ m ∈ ms.dropLast, m.flexible = false) ∧
       (s = false → ∀ m ∈ ms, m.flexible = false))
  | [] => by simp [addsOk]
  | [m] => by cases hm : m.flexible <;> cases hs : s <;> simp [addsOk, hm, hs]
  | m :: m2 :: rest => by
    have ih := addsOk_false_iff s (m2 :: rest)
    have hdl : (m :: m2 :: rest).dropLast = m :: (m2 :: rest).dropLast := rfl
    cases hm : m.flexible with
    | true =>
      constructor
      · rintro ⟨-, -, habs, -, -⟩
        exact absurd habs (by simp [hm])
      · rintro ⟨h1, -⟩
        have hmem : m ∈ (m :: m2 :: rest).dropLast := by
          rw [hdl]; exact List.mem_cons_self m _
        exact absurd (h1 m hmem) (by simp [hm])
    | false =>
      constructor
      · rintro ⟨-, -, hmf, h2, h3⟩
        have hrest := ih.mp ⟨rfl, h2, h3⟩
        constructor
        · intro x hx
          rw [hdl] at hx
          rcases List.mem_cons.mp hx with rfl | hx2
          · exact hm
          · exact hrest.1 x hx2
        · intro hs x hx
          rcases List.mem_cons.mp hx with rfl | hx2
          · exact hm
          · exact hrest.2 hs x hx2
      · rintro ⟨h1, h2⟩
        have hd : ∀ x ∈ (m2 :: rest).dropLast, x.flexible = false := by
          intro x hx
          refine h1 x ?_
          rw [hdl]
          exact List.mem_cons_of_mem _ hx
        have hrest := ih.mpr ⟨hd, fun hs x hx => h2 hs x (List.mem_cons_of_mem _ hx)⟩
        exact ⟨rfl, fun hf => by simp [hm] at hf, hm, hrest.2.1, hrest.2.2⟩

end Onramp

namespace Onramp

theorem record_add_all_append : ∀ (xs : List MemberTy) (r : Record) (ys : List MemberTy),
    record_add_all r (xs ++ ys) = (record_add_all r xs).bind (fun r2 => record_add_all r2 ys)
  | [], r, ys => by simp [record_add_all]
  | m :: rest, r, ys => by
    simp only [List.cons_append, record_add_all]
    cases record_add r m with
    | none => simp
    | some r2 => simpa using record_add_all_append rest r2 ys

/-- A flexible array member contributes exactly as much to the record's size
and alignment as a zero-sized non-flexible member of the same name and
alignment would: nothing beyond alignment padding. -/
theorem record_add_flexible_size (r : Record) (m : MemberTy)
    (hs : r.is_struct = true) (hflex : m.flexible = true) :
    Option.map Record.size (record_add r m)
      = Option.map Record.size (record_add r { m with size := 0, flexible := false }) := by
  rw [record_add_eq, record_add_eq]
  by_cases hrest : lastFlex r = false ∧ m.name ∉ namesOf r
  · rw [if_pos (show lastFlex r = false ∧ (m.flexible = true → r.is_struct = true) ∧
        m.name ∉ namesOf r from ⟨hrest.1, fun _ => hs, hrest.2⟩),
      if_pos (show lastFlex r = false ∧
        (({ m with size := 0, flexible := false } : MemberTy).flexible = true →
          r.is_struct = true) ∧
        ({ m with size := 0, flexible := false } : MemberTy).name ∉ namesOf r from
        ⟨hrest.1, fun h => by simp at h, hrest.2⟩)]
    simp [newSizeF, newAlign, memberOffset, hflex]
  · rw [if_neg (show ¬_ from fun hc => hrest ⟨hc.1, hc.2.2⟩),
      if_neg (show ¬_ from fun hc => hrest ⟨hc.1, hc.2.2⟩)]

theorem record_add_all_is_struct_aux : ∀ (ms : List MemberTy) (r r2 : Record),
    record_add_all r ms = some r2 → r2.is_struct = r.is_struct
  | [], r, r2, h => by
    simp [record_add_all] at h
    rw [← h]
  | m :: rest, r, r2, h => by
    simp only [record_add_all] at h
    cases hadd : record_add r m with
    | none => rw [hadd] at h; exact absurd h (by simp)
    | some rmid =>
      rw [hadd] at h
      rw [record_add_all_is_struct_aux rest rmid r2 h]
      exact record_add_some_is_struct r m rmid hadd


/-- **C6** (confirmed).  Processing a record definition's member list fails
exactly when a flexible array member is not the last member or the record is
a union; and an accepted trailing flexible array member contributes zero
bytes to the struct's size (its size field never enters the computation). -/
theorem c6_flexible_array_member (s : Bool) (ms : List MemberTy)
    (hnd : (ms.map MemberTy.name).Nodup) :
    (((buildRecord s ms).isSome = true) ↔
      ((∀ m ∈ ms.dropLast, m.flexible = false) ∧
       (s = false → ∀ m ∈ ms, m.flexible = false))) ∧
    (∀ pre m, ms = pre ++ [m] → m.flexible = true → s = true →
      (buildRecord s ms).map Record.size
        = (buildRecord s (pre ++ [{ m with size := 0, flexible := false }])).map Record.size) := by
  constructor
  · have h := record_add_all_isSome ms (record_new s) (by simp [namesOf, record_new]) hnd
    rw [show lastFlex (record_new s) = false from rfl,
      show (record_new s).is_struct = s from rfl] at h
    rw [buildRecord, h]
    exact addsOk_false_iff s ms
  · rintro pre m rfl hflex hs
    rw [buildRecord, buildRecord, record_add_all_append, record_add_all_append]
    cases hpre : record_add_all (record_new s) pre with
    | none => simp
    | some rp =>
      simp only [Option.some_bind']
      have hstruct : rp.is_struct = true := by
        rw [record_add_all_is_struct_aux pre (record_new s) rp hpre]
        exact hs
      have hsz := record_add_flexible_size rp m hstruct hflex
      simp only [record_add_all]
      cases h1 : record_add rp m with
      | none =>
        cases h2 : record_add rp { m with size := 0, flexible := false } with
        | none => rfl
        | some r4 =>
          rw [h1, h2] at hsz
          simp at hsz
      | some r3 =>
        cases h2 : record_add rp { m with size := 0, flexible := false } with
        | none =>
          rw [h1, h2] at hsz
          simp at hsz
        | some r4 =>
          rw [h1, h2] at hsz
          simpa [record_add_all] using hsz

end Onramp

namespace Onramp

/-- Witness for C6: a struct `{ int a; int f[]; }`-like member list is
accepted, and its size is 4 — the trailing flexible array adds nothing. -/
theorem c6_witness :
    ((buildRecord true [⟨"a", 4, 4, false⟩, ⟨"f", 0, 4, true⟩]).isSome = true) ∧
    (buildRecord true [⟨"a", 4, 4, false⟩, ⟨"f", 0, 4, true⟩]).map Record.size = some 4 := by
  have h := c6_flexible_array_member true [⟨"a", 4, 4, false⟩, ⟨"f", 0, 4, true⟩] (by decide)
  refine ⟨h.1.mpr (by decide), ?_⟩
  rw [h.2 [⟨"a", 4, 4, false⟩] ⟨"f", 0, 4, true⟩ rfl rfl rfl]
  decide

end Onramp

namespace Onramp

theorem recordInv_record_new (s : Bool) : RecordInv (record_new s) := by
  refine ⟨fun _ => ⟨rfl, rfl⟩, fun h => absurd rfl h, by simp [record_new], fun _ => rfl⟩

/-- One `record_add` step preserves the layout invariant (power-of-two member
alignment assumed, per the spec's `type_alignment`). -/
theorem record_add_inv (r : Record) (m : MemberTy) (r2 : Record)
    (hinv : RecordInv r) (hpow : ∃ k, m.alignment = 2 ^ k)
    (h : record_add r m = some r2) : RecordInv r2 := by
  obtain ⟨k, hk⟩ := hpow
  have hma : 1 ≤ m.alignment := by rw [hk]; exact Nat.one_le_two_pow
  rw [record_add_eq] at h
  by_cases hcond : lastFlex r = false ∧ (m.flexible = true → r.is_struct = true) ∧
      m.name ∉ namesOf r
  swap
  · rw [if_neg hcond] at h
    exact absurd h (by simp)
  rw [if_pos hcond] at h
  simp only [Option.some.injEq] at h
  subst h
  have hnal : 1 ≤ newAlign r m := by
    unfold newAlign
    split
    · exact hma
    · omega
  refine ⟨by simp, fun _ => ?_, ?_, fun hs => ?_⟩
  · -- the new alignment is a power of two
    by_cases hml : r.member_list = []
    · have h0 := (hinv.1 hml).1
      unfold newAlign
      rw [h0, if_pos (by omega)]
      exact ⟨k, hk⟩
    · obtain ⟨j, hj⟩ := hinv.2.1 hml
      unfold newAlign
      split
      · exact ⟨k, hk⟩
      · exact ⟨j, hj⟩
  · -- every offset is aligned
    intro p hp
    rcases List.mem_append.mp hp with hold | hnew
    · exact hinv.2.2.1 p hold
    · rcases List.mem_singleton.mp hnew with rfl
      exact alignUp_mod _ _
  · -- struct: size = aligned data end
    have hde2 : dataEnd ⟨r.is_struct, newAlign r m, newSizeF r m,
        r.member_list ++ [(m, memberOffset r m)]⟩
        = memberOffset r m + (if m.flexible = true then 0 else m.size) := by
      simp [dataEnd, List.getLast?_concat]
    rw [hde2]
    have hle : r.size ≤ alignUp (memberOffset r m + (if m.flexible = true then 0 else m.size))
        (newAlign r m) := by
      by_cases hml : r.member_list = []
      · rw [(hinv.1 hml).2]
        exact Nat.zero_le _
      · obtain ⟨j, hj⟩ := hinv.2.1 hml
        have hs' : r.is_struct = true := hs
        have hsz : r.size = alignUp (dataEnd r) r.alignment := hinv.2.2.2 hs'
        -- the previous data end is at most the new member's offset
        have hde : dataEnd r ≤ memberOffset r m := by
          obtain ⟨pl, hgl⟩ := Option.isSome_iff_exists.mp
            (by rwa [List.getLast?_isSome] : (r.member_list.getLast?).isSome = true)
          obtain ⟨lm, lo⟩ := pl
          have hlmf : lm.flexible = false := by
            have := hcond.1
            rw [lastFlex, hgl] at this
            exact this
          have h1 : dataEnd r = lo + lm.size := by
            rw [dataEnd, hgl]
            simp [hlmf]
          have h2 : memberOffset r m = alignUp (lo + lm.size) m.alignment := by
            rw [memberOffset, hgl, hs']
            simp
          rw [h1, h2]
          exact le_alignUp _ _ hma
        -- the record alignment divides the new alignment
        have hdvd : r.alignment ∣ newAlign r m := by
          unfold newAlign
          split
          · rename_i hlt
            rw [hj, hk] at hlt ⊢
            exact pow_dvd_pow 2 (le_of_lt ((Nat.pow_lt_pow_iff_right (by norm_num)).mp hlt))
          · exact dvd_refl _
        calc r.size = alignUp (dataEnd r) r.alignment := hsz
        _ ≤ alignUp (dataEnd r) (newAlign r m) := alignUp_le_alignUp_dvd _ hdvd hnal
        _ ≤ alignUp (memberOffset r m + (if m.flexible = true then 0 else m.size))
            (newAlign r m) := alignUp_le_alignUp_left _ (by omega)
    show (if alignUp (memberOffset r m + (if m.flexible = true then 0 else m.size))
          (newAlign r m) > r.size
        then alignUp (memberOffset r m + (if m.flexible = true then 0 else m.size))
          (newAlign r m)
        else r.size)
      = alignUp (memberOffset r m + (if m.flexible = true then 0 else m.size)) (newAlign r m)
    by_cases hgt : alignUp (memberOffset r m + (if m.flexible = true then 0 else m.size))
        (newAlign r m) > r.size
    · rw [if_pos hgt]
    · rw [if_neg hgt]
      omega

theorem record_add_all_inv : ∀ (ms : List MemberTy) (r r2 : Record),
    RecordInv r → (∀ m ∈ ms, ∃ k, m.alignment = 2 ^ k) →
    record_add_all r ms = some r2 → RecordInv r2
  | [], r, r2, hinv, _, h => by
    simp only [record_add_all, Option.some.injEq] at h
    rwa [← h]
  | m :: rest, r, r2, hinv, hpow, h => by
    simp only [record_add_all] at h
    cases hadd : record_add r m with
    | none => rw [hadd] at h; exact absurd h (by simp)
    | some rmid =>
      rw [hadd] at h
      exact record_add_all_inv rest rmid r2
        (record_add_inv r m rmid hinv (hpow m (List.mem_cons_self m rest)) hadd)
        (fun x hx => hpow x (List.mem_cons_of_mem _ hx)) h

end Onramp

namespace Onramp

/-- Counterexample for **C4**: in the union `{ char a[6]; int b; }` (member
alignments 1 = 2^0 and 4 = 2^2, sizes 6 and 4), the parsed record has size 6
and alignment 4, and 6 mod 4 ≠ 0 — `record_add` never rounds an earlier,
larger member end up to an alignment introduced later, and `parse_record`
performs no final fix-up. -/
theorem c4_counterexample :
    (buildRecord false [⟨"a", 6, 1, false⟩, ⟨"b", 4, 4, false⟩]).map
      (fun r => (r.size, r.alignment)) = some (6, 4) ∧
    ((1 : Nat) = 2 ^ 0 ∧ (4 : Nat) = 2 ^ 2) ∧
    ¬((6 : Nat) % 4 = 0) := by
  decide

/-- **C4** (corrected).  For every record built by `record_add` from members
with power-of-two alignments, every member offset is a multiple of that
member's alignment; and for every *struct*, size mod alignment = 0.  (For
unions the size clause fails; see the counterexample.) -/
theorem c4_record_layout (s : Bool) (ms : List MemberTy)
    (hpow : ∀ m ∈ ms, ∃ k, m.alignment = 2 ^ k) (r : Record)
    (hr : buildRecord s ms = some r) :
    (∀ p ∈ r.member_list, p.2 % p.1.alignment = 0) ∧
    (s = true → r.size % r.alignment = 0) := by
  have hinv := record_add_all_inv ms (record_new s) r (recordInv_record_new s) hpow hr
  refine ⟨hinv.2.2.1, fun hs => ?_⟩
  have hstruct : r.is_struct = true := by
    rw [record_add_all_is_struct_aux ms (record_new s) r hr]
    exact hs
  rw [hinv.2.2.2 hstruct]
  exact alignUp_mod _ _

/-- Witness for C4: the struct `{ int a; char b; }`-like member list gives
offsets 0 and 4 (each aligned) and size 8 with alignment 4. -/
theorem c4_witness :
    ∃ r, buildRecord true [⟨"a", 4, 4, false⟩, ⟨"b", 1, 1, false⟩] = some r ∧
      (∀ p ∈ r.member_list, p.2 % p.1.alignment = 0) ∧ r.size % r.alignment = 0 := by
  have h := c4_record_layout true [⟨"a", 4, 4, false⟩, ⟨"b", 1, 1, false⟩]
    (by
      intro m hm
      rcases List.mem_cons.mp hm with rfl | hm2
      · exact ⟨2, rfl⟩
      · rcases List.mem_singleton.mp hm2 with rfl
        exact ⟨0, rfl⟩)
    ⟨true, 4, 8, [(⟨"a", 4, 4, false⟩, 0), (⟨"b", 1, 1, false⟩, 4)]⟩ (by decide)
  exact ⟨_, by decide, h.1, h.2 rfl⟩

end Onramp

namespace Onramp

theorem hexVal_int_to_hex (d : Nat) (hd : d < 16) : hexVal (int_to_hex d) = d := by
  interval_cases d <;> decide

theorem isHexDigitUpper_int_to_hex (d : Nat) (hd : d < 16) : isHexDigitUpper (int_to_hex d) := by
  interval_cases d <;> decide

theorem int_to_hex_ne_zero_char (d : Nat) (hd : d < 16) (hne : d ≠ 0) : int_to_hex d ≠ '0' := by
  interval_cases d <;> simp_all <;> decide

theorem decodeHex_append_singleton (xs : List Char) (c : Char) :
    decodeHex (xs ++ [c]) = decodeHex xs * 16 + hexVal c := by
  simp [decodeHex, List.foldl_append]

theorem decodeDec_append_singleton (xs : List Char) (c : Char) :
    decodeDec (xs ++ [c]) = decodeDec xs * 10 + (c.toNat - 48) := by
  simp [decodeDec, List.foldl_append]

theorem emit_hex_number_peel (u : Nat) (h16 : 16 ≤ u) (h8 : u < 16 ^ 8) :
    emit_hex_number u = emit_hex_number (u / 16) ++ [int_to_hex (u % 16)] := by
  have hnum : (16 : Nat) ^ 8 = 0x100000000 := by norm_num
  have e1 : u / 16 / 16 = u / 0x100 := by rw [Nat.div_div_eq_div_mul]
  have e2 : u / 16 / 0x100 = u / 0x1000 := by rw [Nat.div_div_eq_div_mul]
  have e3 : u / 16 / 0x1000 = u / 0x10000 := by rw [Nat.div_div_eq_div_mul]
  have e4 : u / 16 / 0x10000 = u / 0x100000 := by rw [Nat.div_div_eq_div_mul]
  have e5 : u / 16 / 0x100000 = u / 0x1000000 := by rw [Nat.div_div_eq_div_mul]
  have e6 : u / 16 / 0x1000000 = u / 0x10000000 := by rw [Nat.div_div_eq_div_mul]
  have e7 : u / 16 / 0x10000000 = u / 0x100000000 := by rw [Nat.div_div_eq_div_mul]
  have e8 : u / 0x100000000 = 0 := Nat.div_eq_of_lt (by omega)
  have hnz : ¬(u / 16 = 0) := by
    have := Nat.div_pos h16 (by norm_num : 0 < 16)
    omega
  unfold emit_hex_number
  rw [e1, e2, e3, e4, e5, e6, e7, e8]
  simp [hnz, List.append_assoc]

end Onramp

namespace Onramp

theorem emit_hex_number_base (u : Nat) (h16 : u < 16) :
    emit_hex_number u = [int_to_hex u] := by
  have d1 : u / 0x10 = 0 := Nat.div_eq_of_lt (by omega)
  have d2 : u / 0x100 = 0 := Nat.div_eq_of_lt (by omega)
  have d3 : u / 0x1000 = 0 := Nat.div_eq_of_lt (by omega)
  have d4 : u / 0x10000 = 0 := Nat.div_eq_of_lt (by omega)
  have d5 : u / 0x100000 = 0 := Nat.div_eq_of_lt (by omega)
  have d6 : u / 0x1000000 = 0 := Nat.div_eq_of_lt (by omega)
  have d7 : u / 0x10000000 = 0 := Nat.div_eq_of_lt (by omega)
  have dm : u % 16 = u := Nat.mod_eq_of_lt h16
  unfold emit_hex_number
  rw [d1, d2, d3, d4, d5, d6, d7, dm]
  simp

theorem emit_hex_number_spec : ∀ u : Nat, u < 16 ^ 8 →
    emit_hex_number u ≠ [] ∧
    (∀ c ∈ emit_hex_number u, isHexDigitUpper c) ∧
    decodeHex (emit_hex_number u) = u ∧
    (16 ≤ u → (emit_hex_number u).head? ≠ some '0') := by
  intro u
  induction u using Nat.strongRecOn with
  | _ u ih =>
    intro h8
    by_cases h16 : u < 16
    · rw [emit_hex_number_base u h16]
      refine ⟨by simp, ?_, ?_, ?_⟩
      · intro c hc
        rcases List.mem_singleton.mp hc with rfl
        exact isHexDigitUpper_int_to_hex u h16
      · show decodeHex ([] ++ [int_to_hex u]) = u
        rw [decodeHex_append_singleton]
        simp [decodeHex, hexVal_int_to_hex u h16]
      · intro habs
        omega
    · have h16' : 16 ≤ u := by omega
      have hdiv8 : u / 16 < 16 ^ 8 := lt_of_le_of_lt (Nat.div_le_self u 16) h8
      have hrec := ih (u / 16) (Nat.div_lt_self (by omega) (by norm_num)) hdiv8
      rw [emit_hex_number_peel u h16' h8]
      refine ⟨by simp, ?_, ?_, ?_⟩
      · intro c hc
        rcases List.mem_append.mp hc with hc1 | hc2
        · exact hrec.2.1 c hc1
        · rcases List.mem_singleton.mp hc2 with rfl
          exact isHexDigitUpper_int_to_hex _ (Nat.mod_lt u (by norm_num))
      · rw [decodeHex_append_singleton, hrec.2.2.1,
          hexVal_int_to_hex _ (Nat.mod_lt u (by norm_num))]
        omega
      · intro _
        rw [List.head?_append_of_ne_nil _ hrec.1]
        by_cases hq : u / 16 < 16
        · rw [emit_hex_number_base _ hq]
          have hqne : u / 16 ≠ 0 := by
            have := Nat.div_pos h16' (by norm_num : 0 < 16)
            omega
          simp only [List.head?_cons, ne_eq, Option.some.injEq]
          exact int_to_hex_ne_zero_char _ hq hqne
        · exact hrec.2.2.2 (by omega)

theorem emit_hex_number_length : ∀ (n : Nat), ∀ u : Nat, n ≤ 8 → u < 16 ^ n →
    (emit_hex_number u).length ≤ max n 1 := by
  intro n
  induction n with
  | zero =>
    intro u _ hu
    have : u = 0 := by omega
    subst this
    rw [emit_hex_number_base 0 (by norm_num)]
    simp
  | succ n ihn =>
    intro u hn hu
    by_cases h16 : u < 16
    · rw [emit_hex_number_base u h16]
      simp [Nat.le_max_right]
    · have h16' : 16 ≤ u := by omega
      have hn1 : 1 ≤ n := by
        by_contra hc
        have : n = 0 := by omega
        subst this
        simp at hu
        omega
      have hq : u / 16 < 16 ^ n := by
        apply Nat.div_lt_of_lt_mul
        calc u < 16 ^ (n + 1) := hu
        _ = 16 * 16 ^ n := by ring
      have h8 : u < 16 ^ 8 :=
        lt_of_lt_of_le hu (Nat.pow_le_pow_right (by norm_num) hn)
      rw [emit_hex_number_peel u h16' h8]
      have := ihn (u / 16) (by omega) hq
      simp only [List.length_append, List.length_singleton]
      omega

end Onramp

namespace Onramp

theorem digit_char_toNat (d : Nat) (hd : d < 10) : (Char.ofNat (48 + d)).toNat = 48 + d := by
  interval_cases d <;> decide

theorem digit_char_isDigit (d : Nat) (hd : d < 10) : (Char.ofNat (48 + d)).isDigit = true := by
  interval_cases d <;> decide

theorem digit_char_ne_zero (d : Nat) (hd : d < 10) (hne : d ≠ 0) :
    Char.ofNat (48 + d) ≠ '0' := by
  interval_cases d <;> simp_all <;> decide

theorem emit_decimal_loop_eq (n : Nat) (acc : List Char) :
    emit_decimal_loop n acc = if n = 0 then acc
      else emit_decimal_loop (n / 10) (Char.ofNat (48 + (n - n / 10 * 10)) :: acc) := by
  rw [emit_decimal_loop]
  simp

theorem emit_decimal_loop_spec : ∀ u : Nat, 1 ≤ u → ∀ acc : List Char,
    ∃ ds, emit_decimal_loop u acc = ds ++ acc ∧ ds ≠ [] ∧
      (∀ c ∈ ds, c.isDigit) ∧ decodeDec ds = u ∧ ds.head? ≠ some '0' := by
  intro u
  induction u using Nat.strongRecOn with
  | _ u ih =>
    intro h1 acc
    have hdig : u - u / 10 * 10 = u % 10 := by omega
    have hmod : u % 10 < 10 := Nat.mod_lt u (by norm_num)
    rw [emit_decimal_loop_eq, if_neg (show ¬u = 0 by omega)]
    by_cases h10 : u < 10
    · have hq0 : u / 10 = 0 := Nat.div_eq_of_lt h10
      rw [emit_decimal_loop_eq, if_pos hq0]
      refine ⟨[Char.ofNat (48 + (u - u / 10 * 10))], rfl, by simp, ?_, ?_, ?_⟩
      · intro c hc
        rcases List.mem_singleton.mp hc with rfl
        rw [hdig]
        exact digit_char_isDigit _ hmod
      · show decodeDec ([] ++ [Char.ofNat (48 + (u - u / 10 * 10))]) = u
        rw [decodeDec_append_singleton]
        simp only [decodeDec, List.foldl_nil]
        rw [hdig, digit_char_toNat _ hmod]
        omega
      · simp only [List.head?_cons, ne_eq, Option.some.injEq]
        rw [hdig]
        exact digit_char_ne_zero _ hmod (by omega)
    · have hq1 : 1 ≤ u / 10 := Nat.div_pos (by omega) (by norm_num)
      obtain ⟨ds, hds, hne, hdigits, hdec, hhead⟩ :=
        ih (u / 10) (Nat.div_lt_self (by omega) (by norm_num)) hq1
          (Char.ofNat (48 + (u - u / 10 * 10)) :: acc)
      refine ⟨ds ++ [Char.ofNat (48 + (u - u / 10 * 10))], ?_, by simp, ?_, ?_, ?_⟩
      · rw [hds]
        simp
      · intro c hc
        rcases List.mem_append.mp hc with hc1 | hc2
        · exact hdigits c hc1
        · rcases List.mem_singleton.mp hc2 with rfl
          rw [hdig]
          exact digit_char_isDigit _ hmod
      · rw [decodeDec_append_singleton, hdec, hdig, digit_char_toNat _ hmod]
        omega
      · rw [List.head?_append_of_ne_nil _ hne]
        exact hhead

end Onramp

namespace Onramp

theorem emit_decimal_spec (v : Int) (hgt : -100000000 < v) (hlt : v < 1000000) :
    ∃ ds, emit_decimal v = (if v < 0 then ['-'] else []) ++ ds ∧ ds ≠ [] ∧
      (∀ c ∈ ds, c.isDigit) ∧ decodeDec ds = v.natAbs ∧
      (v = 0 ∨ ds.head? ≠ some '0') := by
  unfold emit_decimal
  by_cases h0 : v = 0
  · rw [if_pos h0]
    exact ⟨['0'], by rw [if_neg (by omega)]; simp, by simp, by decide,
      by simp [decodeDec, h0], Or.inl h0⟩
  · rw [if_neg h0, if_neg (show ¬v = -2147483648 by omega)]
    have habs : 1 ≤ v.natAbs := by omega
    obtain ⟨ds, hds, hne, hdigits, hdec, hhead⟩ := emit_decimal_loop_spec v.natAbs habs []
    rw [List.append_nil] at hds
    exact ⟨ds, by rw [hds], hne, hdigits, hdec, Or.inr hhead⟩

/-- **C8** (corrected).  `emit_int` writes the value in decimal (optionally
signed, no leading zero except for 0 itself, then a space) exactly when the
value is in the open interval (-100000000, 1000000); otherwise it writes
`0x` followed by 1 to 8 uppercase hex digits — the significant digits of the
32-bit two's-complement representation with leading zeros suppressed, not a
fixed `0xXXXXXXXX` form — and a space. -/
theorem c8_emit_int_form (value : Int)
    (hlo : -(2 : Int) ^ 31 ≤ value) (hhi : value < 2 ^ 31) :
    (-100000000 < value ∧ value < 1000000 →
      ∃ ds, emit_int value = (if value < 0 then ['-'] else []) ++ ds ++ [' '] ∧
        ds ≠ [] ∧ (∀ c ∈ ds, c.isDigit) ∧ decodeDec ds = value.natAbs ∧
        (value = 0 ∨ ds.head? ≠ some '0')) ∧
    (¬(-100000000 < value ∧ value < 1000000) →
      ∃ ds, emit_int value = '0' :: 'x' :: (ds ++ [' ']) ∧
        1 ≤ ds.length ∧ ds.length ≤ 8 ∧ (∀ c ∈ ds, isHexDigitUpper c) ∧
        decodeHex ds = toU32 value ∧ ds.head? ≠ some '0') := by
  constructor
  · intro hint
    obtain ⟨ds, hds, hne, hdigits, hdec, hhead⟩ := emit_decimal_spec value hint.1 hint.2
    refine ⟨ds, ?_, hne, hdigits, hdec, hhead⟩
    unfold emit_int
    rw [if_pos ⟨hint.1, hint.2⟩, hds]
  · intro hout
    have hu32 : toU32 value < 2 ^ 32 := by
      unfold toU32
      omega
    have hu16 : 16 ≤ toU32 value := by
      unfold toU32
      omega
    have h88 : (16 : Nat) ^ 8 = 2 ^ 32 := by norm_num
    obtain ⟨hne, hdigits, hdec, hhead⟩ :=
      emit_hex_number_spec (toU32 value) (by omega)
    refine ⟨emit_hex_number (toU32 value), ?_, ?_, ?_, hdigits, hdec, hhead hu16⟩
    · unfold emit_int
      rw [if_neg hout]
      simp
    · have := List.length_pos.mpr hne
      omega
    · have := emit_hex_number_length 8 (toU32 value) le_rfl (by omega)
      omega

end Onramp

namespace Onramp

/-- Counterexample for **C8**: the first value on the hex path, 1000000,
is emitted as `0xF4240 ` — five hex digits, not the claimed eight-digit
`0xXXXXXXXX` form (leading zero digits are suppressed). -/
theorem c8_counterexample :
    emit_int 1000000 = ['0', 'x', 'F', '4', '2', '4', '0', ' '] ∧
    ¬∃ ds : List Char, emit_int 1000000 = '0' :: 'x' :: (ds ++ [' ']) ∧ ds.length = 8 := by
  refine ⟨by decide, ?_⟩
  rintro ⟨ds, hds, hlen⟩
  rw [show emit_int 1000000 = ['0', 'x', 'F', '4', '2', '4', '0', ' '] from by decide] at hds
  simp only [List.cons.injEq, true_and] at hds
  have := congrArg List.length hds
  simp [hlen] at this

/-- Witness for C8: at value 1000000 the hex branch of the theorem applies,
giving `0x`, 1–8 significant hex digits decoding to 1000000, and a space. -/
theorem c8_witness :
    ∃ ds, emit_int 1000000 = '0' :: 'x' :: (ds ++ [' ']) ∧
      1 ≤ ds.length ∧ ds.length ≤ 8 ∧ (∀ c ∈ ds, isHexDigitUpper c) ∧
      decodeHex ds = toU32 1000000 ∧ ds.head? ≠ some '0' :=
  (c8_emit_int_form 1000000 (by norm_num) (by norm_num)).2 (by norm_num)

end Onramp
